import Mathlib

/-!
Shallow embedding of the profile-likelihood inference engine exercised by the
demo notebook (`likelihood.param_needed`, `set_data_from_toymc`,
`set_max_loglikelihood`, `chi2`, `view`).  The engine itself lives in the
`inference` package of this repository and is not shipped with the notebook,
so the definitions below are modelled from the specification of that engine
and from the notebook's observable contract.
-/

noncomputable section

namespace Inference

/-- An observed event: a vector of feature values. -/
abbrev Event : Type := List ℝ

/-- Modelled from the spec: a Dataset is an ordered collection of observed
events, owned by the likelihood-model instance. -/
structure Dataset where
  events : List Event

/-- The empty dataset (no observed events). -/
def emptyData : Dataset := ⟨[]⟩

/-- Modelled from the spec: a Template is a named probability density over the
observable space together with a normalization (an expected yield) and a way
to draw a sample event from the density given a random seed. -/
structure Template where
  tname : String
  density : Event → ℝ
  sample : ℝ → Event
  norm : ℝ

/-- A value stored in a parameter vector: either a numeric parameter or the
dataset entry that rides along under the name held by `pData`. -/
inductive PVal where
  | num : ℝ → PVal
  | data : Dataset → PVal

/-- A parameter vector: a finite mapping from parameter names to values. -/
abbrev Params : Type := List (String × PVal)

/-- The reserved parameter name carrying the dataset. -/
def pData : String := "data"

/-- Demo parameter name: log10 of the ER background rate. -/
def pEr : String := "lg_er_rate"

/-- Demo parameter name: log10 of the NR background rate. -/
def pNr : String := "lg_nr_rate"

/-- Demo parameter name: log10 of the WIMP signal-rate multiplier. -/
def pSig : String := "lg_sig_mul"

/-- Scenario parameter name: the rate of a single Poisson term. -/
def pRate : String := "rate"

/-- Look up a name in a parameter vector (first binding wins). -/
def Params.lookup : Params → String → Option PVal
  | [], _ => none
  | (m, v) :: rest, n => if n = m then some v else Params.lookup rest n

/-- Whether a parameter vector binds a name. -/
def Params.hasKey (p : Params) (n : String) : Bool :=
  (Params.lookup p n).isSome

/-- The set of names bound by a parameter vector. -/
def Params.keys (p : Params) : Finset String :=
  (p.map Prod.fst).toFinset

/-- The numeric environment read off a parameter vector (non-numeric and
absent entries read as 0; evaluation only consults names whose presence was
checked first). -/
def envOf (p : Params) : String → ℝ := fun n =>
  match Params.lookup p n with
  | some (PVal.num x) => x
  | _ => 0

/-- Modelled from the spec: one factor of the joint log-likelihood.  Each term
declares the parameter names it references and computes a scalar
log-contribution from the dataset and a numeric environment. -/
structure Term where
  names : List String
  logContribution : Dataset → (String → ℝ) → ℝ

/-- Modelled from the spec: one physical source in the generative model, with
its parameter-to-rate transformation and its template. -/
structure Source where
  rateOf : (String → ℝ) → ℝ
  template : Template

/-- The default source used for out-of-range label indices. -/
def defaultSource : Source :=
  ⟨fun _ => 0, ⟨"", fun _ => 0, fun _ => [], 0⟩⟩

/-- The error taxonomy of the engine. -/
inductive LError where
  | missingParameter : String → LError
  | invalidParameter : String → LError
  | convergenceFailure : LError
  | staleFitError : LError
deriving DecidableEq

/-- Modelled from the spec: the immutable definition of a likelihood model:
its terms, its generative sources, and a numerical optimizer.  The optimizer
takes an objective over numeric environments and a seed parameter vector and
proposes a new value for each name (it varies values, never the key set). -/
structure ModelDef where
  terms : List Term
  sources : List Source
  optimize : ((String → ℝ) → ℝ) → Params → String → ℝ

/-- The list of parameter names referenced by the terms, in term order. -/
def ModelDef.neededList (m : ModelDef) : List String :=
  m.terms.foldr (fun t acc => t.names ++ acc) []

/-- Modelled from the spec: the set of all parameter names referenced by any
term, the union over terms, computed from the term list at construction. -/
def ModelDef.paramNeeded (m : ModelDef) : Finset String :=
  m.neededList.toFinset

/-- The first needed name (in term-declaration order) that the supplied
vector does not bind, if any. -/
def findMissing (need : List String) (p : Params) : Option String :=
  need.find? (fun n => !(Params.hasKey p n))

/-- The raw joint log-likelihood: the sum of every term's log-contribution. -/
def evaluateTotal (m : ModelDef) (d : Dataset) (env : String → ℝ) : ℝ :=
  (m.terms.map (fun t => t.logContribution d env)).sum

/-- Modelled from the spec: `evaluate` checks that every needed name is bound
(failing fast with MissingParameter naming a missing one) and otherwise
returns the sum of the terms' log-contributions. -/
def evaluate (m : ModelDef) (d : Dataset) (p : Params) : Except LError ℝ :=
  match findMissing m.neededList p with
  | some n => .error (.missingParameter n)
  | none => .ok (evaluateTotal m d (envOf p))

/-- Extend a caller-supplied parameter vector with the model-owned dataset
under the reserved name. -/
def withData (d : Dataset) (p : Params) : Params :=
  (pData, PVal.data d) :: p

/-- Modelled from the spec: the cached unconditional maximum-likelihood fit:
the fitted parameter vector, the log-likelihood value, the dataset generation
it was computed against, and that dataset itself. -/
structure FitResult where
  params : Params
  value : ℝ
  gen : ℕ
  dataset : Dataset

/-- Modelled from the spec: a likelihood-model instance: its definition, its
current dataset (with a generation counter), and the cached fit, if any. -/
structure ModelState where
  model : ModelDef
  dataset : Dataset
  datasetGen : ℕ
  fit : Option FitResult

/-- A freshly constructed model instance: no cached fit. -/
def initState (m : ModelDef) (d : Dataset) : ModelState :=
  ⟨m, d, 0, none⟩

/-- The cached fit is valid: it exists and matches the dataset generation. -/
def validFit (s : ModelState) : Prop :=
  ∃ fr, s.fit = some fr ∧ fr.gen = s.datasetGen

/-- Cache-validity invariant: a cached fit never points past the current
generation, and a generation-matching (valid) fit was computed against the
current dataset. -/
def cacheInv (s : ModelState) : Prop :=
  ∀ fr, s.fit = some fr →
    fr.gen ≤ s.datasetGen ∧ (fr.gen = s.datasetGen → fr.dataset = s.dataset)

/-- The cached global maximum log-likelihood (0 when no fit is cached; only
read behind a validity check). -/
def globalMaxLL (s : ModelState) : ℝ :=
  match s.fit with
  | some fr => fr.value
  | none => 0

/-- Modelled from the spec: the randomness consumed by one toy-MC draw: a
total event count, a uniform draw in `[0, total rate)` per event for the
source label, and a seed per event for the template sampler. -/
structure Randomness where
  count : ℕ
  u : ℕ → ℝ
  seed : ℕ → ℝ

/-- Inverse-CDF label pick: the index of the sub-interval of cumulative
weights that the draw `u` falls into. -/
def pickIndex : List ℝ → ℝ → ℕ
  | [], _ => 0
  | w :: ws, u => if u < w then 0 else pickIndex ws (u - w) + 1

/-- The sum of the first `k` weights. -/
def sumTake (ws : List ℝ) (k : ℕ) : ℝ :=
  (ws.take k).sum

/-- The per-source rates implied by a numeric environment. -/
def sourceRates (m : ModelDef) (env : String → ℝ) : List ℝ :=
  m.sources.map (fun s => s.rateOf env)

/-- The combined rate: the sum over sources. -/
def totalRate (m : ModelDef) (env : String → ℝ) : ℝ :=
  (sourceRates m env).sum

/-- Modelled from the spec: simulate a toy dataset: draw the total event
count, then for each event pick a source label with probability proportional
to its rate (inverse CDF on a uniform draw) and sample the event's features
from that source's template. -/
def simulate (m : ModelDef) (env : String → ℝ) (r : Randomness) : Dataset :=
  ⟨(List.range r.count).map (fun i =>
      ((m.sources.getD (pickIndex (sourceRates m env) (r.u i)) defaultSource).template.sample
        (r.seed i)))⟩

/-- The optimization objective: the raw log-likelihood as a function of the
numeric environment. -/
def objective (m : ModelDef) (d : Dataset) : (String → ℝ) → ℝ :=
  fun env => evaluateTotal m d env

/-- Re-value a parameter vector: keep its keys, replace each numeric slot by
the optimizer-proposed value for that name. -/
def reval (vals : String → ℝ) (p : Params) : Params :=
  p.map (fun nv => (nv.1, PVal.num (vals nv.1)))

/-- The mutating operations of a model instance. -/
inductive Op where
  | setData : Params → Randomness → Op
  | setMax : Params → Op

/-- The parameter vector produced by the global fit seeded at `guess`. -/
def globalFitParams (s : ModelState) (guess : Params) : Params :=
  reval (s.model.optimize (objective s.model s.dataset) (withData s.dataset guess)) guess

/-- Modelled from the spec: the state transition of each mutating operation.
`setData` replaces the dataset with a simulated one and advances the
generation counter; `setMax` runs the global fit and caches the result at the
current generation. -/
def step (s : ModelState) : Op → ModelState
  | .setData p r =>
      { s with dataset := simulate s.model (envOf p) r, datasetGen := s.datasetGen + 1 }
  | .setMax guess =>
      { s with fit := some ⟨globalFitParams s guess,
          evaluateTotal s.model s.dataset (envOf (globalFitParams s guess)),
          s.datasetGen, s.dataset⟩ }

/-- The parameter vector at which the profiled fit evaluates the likelihood:
the fixed interesting parameters, then the optimizer-proposed values on the
nuisance keys (seeded at the guess), with the model's own dataset added under
the reserved name. -/
def profiledParams (s : ModelState) (theta phig : Params) : Params :=
  withData s.dataset
    (theta ++
      reval (s.model.optimize (objective s.model s.dataset) (withData s.dataset (theta ++ phig)))
        phig)

/-- The profiled maximum log-likelihood as computed by the engine: `evaluate`
maximized over the nuisance parameters with the interesting parameters held
fixed, seeded at the guess. -/
def profiledLL (s : ModelState) (theta phig : Params) : ℝ :=
  evaluateTotal s.model s.dataset (envOf (profiledParams s theta phig))

/-- Modelled from the spec: the profile-likelihood-ratio test statistic.
Requires a valid cached global fit (else StaleFitError), then evaluates the
profiled fit and returns minus twice the difference to the cached global
maximum, raw and unclipped. -/
def chi2 (s : ModelState) (theta phig : Params) : Except LError ℝ :=
  match s.fit with
  | none => .error .staleFitError
  | some fr =>
      if fr.gen = s.datasetGen then
        match evaluate s.model s.dataset (profiledParams s theta phig) with
        | .error e => .error e
        | .ok ll => .ok (-2 * (ll - fr.value))
      else .error .staleFitError

/-- A profiling-failure warning is surfaced exactly when the statistic came
out negative. -/
def profilingWarning (s : ModelState) (theta phig : Params) : Prop :=
  ∃ t, chi2 s theta phig = .ok t ∧ t < 0

/-- A numeric environment extends a parameter vector when it agrees with
every numeric binding of the vector. -/
def agreesWith (env : String → ℝ) (p : Params) : Prop :=
  ∀ n x, Params.lookup p n = some (PVal.num x) → env n = x

/-- The set of log-likelihood values attainable while honouring the numeric
bindings of `fixed` (the feasible set of the constrained maximization). -/
def attainable (m : ModelDef) (d : Dataset) (fixed : Params) : Set ℝ :=
  { x | ∃ env, agreesWith env fixed ∧ x = evaluateTotal m d env }

/-- Ten to a real power, the demo's rate transformation. -/
def tenPow (x : ℝ) : ℝ := (10 : ℝ) ^ x

/-- The Poisson log-probability of observing `n` events at rate `lam`. -/
def poissonLogPmf (lam : ℝ) (n : ℕ) : ℝ :=
  -lam + n * Real.log lam - Real.log (Nat.factorial n)

/-- The Gaussian log-density of `x` with mean `mu` and standard deviation
`std`. -/
def gaussLogPdf (x mu std : ℝ) : ℝ :=
  -((x - mu) ^ 2 / (2 * std ^ 2)) - Real.log (std * Real.sqrt (2 * Real.pi))

/-- Modelled from the spec and from `likelihood.view()`: the three sources of
the demo model with their parameter-to-rate transformations, shared between
simulation and likelihood evaluation. -/
def demoSources (nr er wimp : Template) : List Source :=
  [⟨fun env => tenPow (env pNr), nr⟩,
   ⟨fun env => tenPow (env pEr), er⟩,
   ⟨fun env => wimp.norm * tenPow (env pSig), wimp⟩]

/-- The unnormalized mixture density of an event: the rate-weighted sum of
the source template densities, divided by the total rate. -/
def mixtureDensity (srcs : List Source) (env : String → ℝ) (e : Event) : ℝ :=
  (srcs.map (fun s => s.rateOf env * s.template.density e)).sum /
    (srcs.map (fun s => s.rateOf env)).sum

/-- The parameter names referenced by the demo's Poisson and mixture terms,
in declaration order. -/
def demoNamesL : List String := [pData, pNr, pEr, pSig]

/-- The set of parameter names shown by the demo's `param_needed`. -/
def demoNames : Finset String := {pData, pNr, pEr, pSig}

/-- Modelled from the spec and from `likelihood.view()`: the demo likelihood:
a Poisson count term at the combined rate, a multi-source unbinned mixture
term over (nr, er, wimp), and a Gaussian constraint on the NR rate. -/
def demoModel (nr er wimp : Template) (relStd : ℝ)
    (opt : ((String → ℝ) → ℝ) → Params → String → ℝ) : ModelDef :=
  { terms :=
      [⟨demoNamesL, fun d env =>
          poissonLogPmf ((demoSources nr er wimp).map (fun s => s.rateOf env)).sum
            d.events.length⟩,
       ⟨demoNamesL, fun d env =>
          (d.events.map (fun e =>
            Real.log (mixtureDensity (demoSources nr er wimp) env e))).sum⟩,
       ⟨[pNr], fun _ env =>
          gaussLogPdf (tenPow (env pNr)) nr.norm (nr.norm * relStd)⟩],
    sources := demoSources nr er wimp,
    optimize := opt }

/-- Modelled from the spec (Scenario A): a model with a single Poisson term
over one rate parameter and no nuisance parameters. -/
def poissonOnlyModel (opt : ((String → ℝ) → ℝ) → Params → String → ℝ) : ModelDef :=
  { terms := [⟨[pRate], fun d env => poissonLogPmf (env pRate) d.events.length⟩],
    sources := [],
    optimize := opt }

/-- A trivial constant-likelihood model used to instantiate general theorems
at concrete inputs. -/
def constModel : ModelDef :=
  { terms := [⟨[], fun _ _ => 0⟩],
    sources := [],
    optimize := fun _ _ _ => 0 }

/-- A concrete template used in instantiations. -/
def unitTemplate : Template := ⟨"unit", fun _ => 1, fun _ => [], 1⟩

/-- A trivial optimizer used in instantiations: it proposes 0 everywhere. -/
def zeroOpt : ((String → ℝ) → ℝ) → Params → String → ℝ := fun _ _ _ => 0

/-- A concrete instance of the demo model used in instantiations. -/
def dModel : ModelDef := demoModel unitTemplate unitTemplate unitTemplate 1 zeroOpt

/-- A concrete cached fit used in instantiations. -/
def cFit : FitResult := ⟨[], 0, 0, emptyData⟩

/-- A concrete constant-model state with a valid cached fit. -/
def cState : ModelState := ⟨constModel, emptyData, 0, some cFit⟩

/-- A concrete demo-model state with a valid cached fit. -/
def dState : ModelState := ⟨dModel, emptyData, 0, some cFit⟩

/-- Concrete randomness drawing zero events. -/
def r0 : Randomness := ⟨0, fun _ => 0, fun _ => 0⟩

/-- Concrete randomness drawing one event. -/
def r1 : Randomness := ⟨1, fun _ => 0, fun _ => 0⟩

/-- A concrete complete parameter vector for the demo model. -/
def dFullParams : Params :=
  [(pData, PVal.data emptyData), (pNr, PVal.num 0), (pEr, PVal.num 2),
   (pSig, PVal.num (-10))]

/-! Helper lemmas about parameter vectors and the missing-name scan. -/

theorem lookup_isSome_iff (p : Params) (n : String) :
    (Params.lookup p n).isSome = true ↔ n ∈ Params.keys p := by
  induction p with
  | nil => simp [Params.lookup, Params.keys]
  | cons nv rest ih =>
    obtain ⟨m, v⟩ := nv
    by_cases h : n = m
    · subst h; simp [Params.lookup, Params.keys]
    · simp [Params.lookup, Params.keys, h] at ih ⊢
      exact ih

theorem lookup_append_isSome (a b : Params) (n : String) :
    (Params.lookup (a ++ b) n).isSome =
      ((Params.lookup a n).isSome || (Params.lookup b n).isSome) := by
  induction a with
  | nil => simp [Params.lookup]
  | cons nv rest ih =>
    obtain ⟨m, v⟩ := nv
    by_cases h : n = m
    · subst h; simp [Params.lookup]
    · simp [Params.lookup, h, ih]

theorem lookup_reval_isSome (vals : String → ℝ) (p : Params) (n : String) :
    (Params.lookup (reval vals p) n).isSome = (Params.lookup p n).isSome := by
  induction p with
  | nil => simp [reval, Params.lookup]
  | cons nv rest ih =>
    obtain ⟨m, v⟩ := nv
    by_cases h : n = m
    · subst h; simp [reval, Params.lookup]
    · simp [reval, Params.lookup, h] at ih ⊢
      exact ih

theorem findMissing_eq_none_iff (need : List String) (p : Params) :
    findMissing need p = none ↔ ∀ n ∈ need, Params.hasKey p n = true := by
  simp [findMissing, List.find?_eq_none]

theorem findMissing_some {need : List String} {p : Params} {n : String}
    (h : findMissing need p = some n) :
    n ∈ need ∧ Params.hasKey p n = false := by
  refine ⟨List.mem_of_find?_eq_some h, ?_⟩
  have hp := List.find?_some h
  simpa using hp

theorem findMissing_isSome_of_missing {need : List String} {p : Params} {n : String}
    (hn : n ∈ need) (hk : Params.hasKey p n = false) :
    ∃ n', findMissing need p = some n' := by
  cases hfm : findMissing need p with
  | some n' => exact ⟨n', rfl⟩
  | none =>
    have := (findMissing_eq_none_iff need p).1 hfm n hn
    rw [hk] at this
    cases this

theorem evaluate_ok_of_cover {m : ModelDef} {d : Dataset} {p : Params}
    (h : ∀ n ∈ m.neededList, Params.hasKey p n = true) :
    evaluate m d p = .ok (evaluateTotal m d (envOf p)) := by
  have hfm : findMissing m.neededList p = none := (findMissing_eq_none_iff _ _).2 h
  simp [evaluate, hfm]

theorem mem_foldr_names {ts : List Term} {n : String} :
    n ∈ ts.foldr (fun t acc => t.names ++ acc) [] ↔ ∃ t ∈ ts, n ∈ t.names := by
  induction ts with
  | nil => simp
  | cons t ts ih => simp [ih]

theorem mem_neededList_iff {m : ModelDef} {n : String} :
    n ∈ m.neededList ↔ ∃ t ∈ m.terms, n ∈ t.names :=
  mem_foldr_names

theorem mem_paramNeeded_iff {m : ModelDef} {n : String} :
    n ∈ m.paramNeeded ↔ ∃ t ∈ m.terms, n ∈ t.names := by
  rw [ModelDef.paramNeeded, List.mem_toFinset]
  exact mem_neededList_iff

theorem hasKey_withData (d : Dataset) (q : Params) (n : String) :
    Params.hasKey (withData d q) n = ((n == pData) || Params.hasKey q n) := by
  by_cases h : n = pData
  · subst h; simp [withData, Params.hasKey, Params.lookup]
  · simp [withData, Params.hasKey, Params.lookup, h]

theorem profiledParams_cover (s : ModelState) (theta phig : Params)
    (h : s.model.paramNeeded ⊆ insert pData (Params.keys theta ∪ Params.keys phig)) :
    ∀ n ∈ s.model.neededList, Params.hasKey (profiledParams s theta phig) n = true := by
  intro n hn
  have hmem : n ∈ s.model.paramNeeded := List.mem_toFinset.2 hn
  rw [profiledParams, hasKey_withData]
  rcases Finset.mem_insert.1 (h hmem) with heq | hkeys
  · subst heq; simp
  · have hsome : (Params.lookup (theta ++
        reval (s.model.optimize (objective s.model s.dataset)
          (withData s.dataset (theta ++ phig))) phig) n).isSome = true := by
      rw [lookup_append_isSome, lookup_reval_isSome]
      rcases Finset.mem_union.1 hkeys with h1 | h2
      · rw [(lookup_isSome_iff theta n).2 h1]; simp
      · rw [(lookup_isSome_iff phig n).2 h2]; simp
    simp [Params.hasKey, hsome]

theorem chi2_eq_ok (s : ModelState) (theta phig : Params) {fr : FitResult}
    (hfit : s.fit = some fr) (hgen : fr.gen = s.datasetGen)
    (hcov : s.model.paramNeeded ⊆ insert pData (Params.keys theta ∪ Params.keys phig)) :
    chi2 s theta phig = .ok (-2 * (profiledLL s theta phig - fr.value)) := by
  have hc := profiledParams_cover s theta phig hcov
  have heval := evaluate_ok_of_cover (d := s.dataset) hc
  simp [chi2, hfit, hgen, heval, profiledLL]

theorem poissonLogPmf_zero (lam : ℝ) : poissonLogPmf lam 0 = -lam := by
  simp [poissonLogPmf]

/-- C4: for every parameter vector that omits at least one name in
`param_needed`, `evaluate` fails with a MissingParameter error that names a
parameter that is needed and missing (fail fast, no silent defaults). -/
theorem C4_evaluate_missing_parameter (m : ModelDef) (d : Dataset) (p : Params)
    (n : String) (hn : n ∈ m.paramNeeded) (hmiss : Params.hasKey p n = false) :
    ∃ n', evaluate m d p = .error (.missingParameter n') ∧
      n' ∈ m.paramNeeded ∧ Params.hasKey p n' = false := by
  have hn' : n ∈ m.neededList := List.mem_toFinset.1 hn
  obtain ⟨n', hfm⟩ := findMissing_isSome_of_missing hn' hmiss
  obtain ⟨hmem, hkey⟩ := findMissing_some hfm
  exact ⟨n', by simp [evaluate, hfm], List.mem_toFinset.2 hmem, hkey⟩

/-- Witness for C4: the demo model evaluated on the empty parameter vector
fails with a MissingParameter naming a needed, missing parameter. -/
theorem C4_witness :
    ∃ n', evaluate dModel emptyData [] = .error (.missingParameter n') ∧
      n' ∈ dModel.paramNeeded ∧ Params.hasKey ([] : Params) n' = false :=
  C4_evaluate_missing_parameter dModel emptyData [] pData (by decide) (by decide)

/-- C7: `param_needed` is exactly the union over the terms of the parameter
names each term references, and it is fixed at construction: no operation
changes the model definition or its `param_needed`. -/
theorem C7_param_needed_union (m : ModelDef) (n : String) (s : ModelState) (op : Op) :
    (n ∈ m.paramNeeded ↔ ∃ t ∈ m.terms, n ∈ t.names) ∧
    (step s op).model = s.model ∧
    (step s op).model.paramNeeded = s.model.paramNeeded := by
  refine ⟨mem_paramNeeded_iff, ?_, ?_⟩ <;> cases op <;> rfl

/-- C9: for a model with a single Poisson term and no nuisance parameters and
a dataset of 0 events, the log-likelihood at rate 5 is exactly −5 (natural
log), and the rate 0 is the unique maximizer of the log-likelihood over
nonnegative rates (the global MLE rate equals 0). -/
theorem C9_single_poisson_scenario
    (opt : ((String → ℝ) → ℝ) → Params → String → ℝ) :
    evaluate (poissonOnlyModel opt) emptyData [(pRate, PVal.num 5)] = .ok (-5) ∧
    (∀ lam : ℝ, 0 ≤ lam →
      evaluateTotal (poissonOnlyModel opt) emptyData (fun _ => lam) ≤
        evaluateTotal (poissonOnlyModel opt) emptyData (fun _ => 0)) ∧
    (∀ lam : ℝ, 0 ≤ lam →
      evaluateTotal (poissonOnlyModel opt) emptyData (fun _ => lam) =
        evaluateTotal (poissonOnlyModel opt) emptyData (fun _ => 0) → lam = 0) := by
  have htot : ∀ env : String → ℝ,
      evaluateTotal (poissonOnlyModel opt) emptyData env = -(env pRate) := by
    intro env
    simp [evaluateTotal, poissonOnlyModel, emptyData, poissonLogPmf_zero]
  refine ⟨?_, ?_, ?_⟩
  · have hfm : findMissing (poissonOnlyModel opt).neededList [(pRate, PVal.num 5)] = none :=
      rfl
    rw [evaluate, hfm]
    rw [htot]
    norm_num [envOf, Params.lookup]
  · intro lam hlam
    rw [htot, htot]
    linarith
  · intro lam _ heq
    rw [htot, htot] at heq
    linarith

/-- Witness for C9: the exact −5 value, and the maximizer inequality
instantiated at the concrete rate 3. -/
theorem C9_witness :
    evaluate (poissonOnlyModel zeroOpt) emptyData [(pRate, PVal.num 5)] = .ok (-5) ∧
    evaluateTotal (poissonOnlyModel zeroOpt) emptyData (fun _ => (3 : ℝ)) ≤
      evaluateTotal (poissonOnlyModel zeroOpt) emptyData (fun _ => 0) :=
  ⟨(C9_single_poisson_scenario zeroOpt).1,
   (C9_single_poisson_scenario zeroOpt).2.1 3 (by norm_num)⟩

/-- C1: given a valid cached global fit and a parameter supply covering the
needed names, `chi2` returns minus twice the difference between the profiled
maximum log-likelihood (seeded at the guess) and the cached global maximum
log-likelihood. -/
theorem C1_chi2_profile_ratio (s : ModelState) (theta phig : Params)
    (hvalid : validFit s)
    (hcov : s.model.paramNeeded ⊆ insert pData (Params.keys theta ∪ Params.keys phig)) :
    chi2 s theta phig = .ok (-2 * (profiledLL s theta phig - globalMaxLL s)) := by
  obtain ⟨fr, hfit, hgen⟩ := hvalid
  simpa [globalMaxLL, hfit] using chi2_eq_ok s theta phig hfit hgen hcov

/-- Witness for C1: the formula at a concrete state with a valid fit. -/
theorem C1_witness :
    chi2 cState [] [] = .ok (-2 * (profiledLL cState [] [] - globalMaxLL cState)) :=
  C1_chi2_profile_ratio cState [] [] ⟨cFit, rfl, rfl⟩ (by decide)

theorem demoModel_paramNeeded (nr er wimp : Template) (relStd : ℝ)
    (opt : ((String → ℝ) → ℝ) → Params → String → ℝ) :
    (demoModel nr er wimp relStd opt).paramNeeded = demoNames := by
  have h : (demoModel nr er wimp relStd opt).neededList =
      demoNamesL ++ (demoNamesL ++ ([pNr] ++ [])) := rfl
  rw [ModelDef.paramNeeded, h]
  decide

/-- C10: at the demo likelihood's interface, `chi2` succeeds whenever the
fixed and profiled parameter vectors together bind exactly `param_needed`
minus the reserved data name: the caller never supplies the data entry, even
though it is an element of `param_needed`, because the model inserts its own
dataset. -/
theorem C10_chi2_no_data_key (nr er wimp : Template) (relStd : ℝ)
    (opt : ((String → ℝ) → ℝ) → Params → String → ℝ)
    (s : ModelState) (theta phig : Params)
    (hmodel : s.model = demoModel nr er wimp relStd opt)
    (hvalid : validFit s)
    (hkeys : Params.keys theta ∪ Params.keys phig = demoNames \ {pData}) :
    pData ∈ s.model.paramNeeded ∧ ∃ t, chi2 s theta phig = .ok t := by
  have hdemo : s.model.paramNeeded = demoNames := by
    rw [hmodel, demoModel_paramNeeded]
  constructor
  · rw [hdemo]; decide
  obtain ⟨fr, hfit, hgen⟩ := hvalid
  have hcov : s.model.paramNeeded ⊆ insert pData (Params.keys theta ∪ Params.keys phig) := by
    rw [hdemo, hkeys]
    intro n hn
    by_cases h : n = pData
    · subst h; exact Finset.mem_insert_self _ _
    · exact Finset.mem_insert_of_mem (Finset.mem_sdiff.2 ⟨hn, by simp [h]⟩)
  exact ⟨_, chi2_eq_ok s theta phig hfit hgen hcov⟩

/-- Witness for C10: the demo call shape from the notebook, with the signal
parameter fixed and the two background rates profiled, succeeds. -/
theorem C10_witness :
    pData ∈ dState.model.paramNeeded ∧
      ∃ t, chi2 dState [(pSig, PVal.num (-3))]
        [(pEr, PVal.num 2), (pNr, PVal.num 0)] = .ok t :=
  C10_chi2_no_data_key unitTemplate unitTemplate unitTemplate 1 zeroOpt dState
    [(pSig, PVal.num (-3))] [(pEr, PVal.num 2), (pNr, PVal.num 0)]
    rfl ⟨cFit, rfl, rfl⟩ (by decide)

theorem foldl_no_setMax (l : List Op) (s : ModelState) (hfit : s.fit = none)
    (h : ∀ op ∈ l, ∀ g, op ≠ Op.setMax g) :
    (l.foldl step s).fit = none := by
  induction l generalizing s with
  | nil => simpa using hfit
  | cons op l ih =>
    cases op with
    | setData p r =>
      refine ih _ (by simp [step, hfit]) ?_
      intro op hop
      exact h op (List.mem_cons_of_mem _ hop)
    | setMax g => exact absurd rfl (h _ (List.mem_cons_self _ _) g)

/-- C3: a fresh model instance has no cached fit; `chi2` fails with
StaleFitError whenever no fit is cached, in particular after any operation
sequence that never ran the global fit; and it fails with StaleFitError
whenever the dataset has changed since the last global fit. -/
theorem C3_statistic_stale_fit :
    (∀ (m : ModelDef) (d : Dataset), (initState m d).fit = none) ∧
    (∀ (s : ModelState) (theta phig : Params), s.fit = none →
      chi2 s theta phig = .error .staleFitError) ∧
    (∀ (m : ModelDef) (d : Dataset) (l : List Op) (theta phig : Params),
      (∀ op ∈ l, ∀ g, op ≠ Op.setMax g) →
      chi2 (l.foldl step (initState m d)) theta phig = .error .staleFitError) ∧
    (∀ (s : ModelState) (p : Params) (r : Randomness) (theta phig : Params),
      cacheInv s → chi2 (step s (.setData p r)) theta phig = .error .staleFitError) := by
  have hnone : ∀ (s : ModelState) (theta phig : Params), s.fit = none →
      chi2 s theta phig = .error .staleFitError := by
    intro s theta phig h
    simp [chi2, h]
  refine ⟨fun m d => rfl, hnone, ?_, ?_⟩
  · intro m d l theta phig h
    exact hnone _ _ _ (foldl_no_setMax l _ rfl h)
  · intro s p r theta phig hinv
    cases hfit : s.fit with
    | none => exact hnone _ _ _ (by simp [step, hfit])
    | some fr =>
      have hle := (hinv fr hfit).1
      have hne : ¬ fr.gen = s.datasetGen + 1 := by omega
      simp [chi2, step, hfit, hne]

/-- Witness for C3: concrete stale-fit failures of each kind. -/
theorem C3_witness :
    chi2 (initState constModel emptyData) [] [] = .error .staleFitError ∧
    chi2 ([Op.setData [] r0].foldl step (initState constModel emptyData)) [] []
      = .error .staleFitError ∧
    chi2 (step cState (.setData [] r0)) [] [] = .error .staleFitError :=
  ⟨C3_statistic_stale_fit.2.1 (initState constModel emptyData) [] [] rfl,
   C3_statistic_stale_fit.2.2.1 constModel emptyData [Op.setData [] r0] [] []
     (by intro op hop g; simp at hop; subst hop; simp),
   C3_statistic_stale_fit.2.2.2 cState [] r0 [] []
     (by intro fr h; injection h with h'; subst h'; exact ⟨Nat.le_refl 0, fun _ => rfl⟩)⟩

/-- C5: `set_data_from_toymc` replaces the dataset with the simulated one,
advances the dataset generation, and invalidates any cached fit; the
cache-validity invariant (a valid cached fit corresponds to the current
dataset) holds initially and is preserved by every operation. -/
theorem C5_set_data_invalidates (s : ModelState) (p : Params) (r : Randomness) (op : Op)
    (hinv : cacheInv s) :
    (step s (.setData p r)).dataset = simulate s.model (envOf p) r ∧
    (step s (.setData p r)).datasetGen = s.datasetGen + 1 ∧
    ¬ validFit (step s (.setData p r)) ∧
    (∀ (m : ModelDef) (d : Dataset), cacheInv (initState m d)) ∧
    cacheInv (step s op) := by
  refine ⟨rfl, rfl, ?_, ?_, ?_⟩
  · rintro ⟨fr, hfit, hgen⟩
    have h' : s.fit = some fr := hfit
    have hle := (hinv fr h').1
    have hgen' : fr.gen = s.datasetGen + 1 := hgen
    omega
  · intro m d fr h
    simp [initState] at h
  · cases op with
    | setData q r' =>
      intro fr hfit
      have h' : s.fit = some fr := hfit
      rcases hinv fr h' with ⟨hle, _⟩
      have hg : (step s (.setData q r')).datasetGen = s.datasetGen + 1 := rfl
      refine ⟨?_, ?_⟩
      · rw [hg]; omega
      · intro hgen
        rw [hg] at hgen
        omega
    | setMax g =>
      intro fr hfit
      have h' : some (⟨globalFitParams s g,
          evaluateTotal s.model s.dataset (envOf (globalFitParams s g)),
          s.datasetGen, s.dataset⟩ : FitResult) = some fr := hfit
      injection h' with h''
      subst h''
      exact ⟨Nat.le_refl _, fun _ => rfl⟩

/-- Witness for C5: the concrete constant-model state: its dataset is
replaced, its fit is invalidated, and the invariant survives a global fit. -/
theorem C5_witness :
    (step cState (.setData [] r0)).dataset = simulate cState.model (envOf []) r0 ∧
    ¬ validFit (step cState (.setData [] r0)) ∧
    cacheInv (step cState (.setMax [])) :=
  ⟨(C5_set_data_invalidates cState [] r0 (.setMax [])
      (by intro fr h; injection h with h'; subst h'; exact ⟨Nat.le_refl 0, fun _ => rfl⟩)).1,
   (C5_set_data_invalidates cState [] r0 (.setMax [])
      (by intro fr h; injection h with h'; subst h'; exact ⟨Nat.le_refl 0, fun _ => rfl⟩)).2.2.1,
   (C5_set_data_invalidates cState [] r0 (.setMax [])
      (by intro fr h; injection h with h'; subst h'; exact ⟨Nat.le_refl 0, fun _ => rfl⟩)).2.2.2.2⟩

theorem chi2_ok_inv {s : ModelState} {theta phig : Params} {t : ℝ}
    (h : chi2 s theta phig = .ok t) :
    ∃ fr, s.fit = some fr ∧ fr.gen = s.datasetGen ∧
      t = -2 * (profiledLL s theta phig - fr.value) := by
  cases hfit : s.fit with
  | none => simp [chi2, hfit] at h
  | some fr =>
    by_cases hgen : fr.gen = s.datasetGen
    · cases hev : evaluate s.model s.dataset (profiledParams s theta phig) with
      | error e => simp [chi2, hfit, hgen, hev] at h
      | ok ll =>
        cases hfm : findMissing s.model.neededList (profiledParams s theta phig) with
        | some nn => simp [evaluate, hfm] at hev
        | none =>
          have hll : ll = profiledLL s theta phig := by
            simp [evaluate, hfm] at hev
            exact hev.symm
          simp [chi2, hfit, hgen, hev] at h
          exact ⟨fr, rfl, hgen, by rw [← h, hll]; ring⟩
    · simp [chi2, hfit, hgen] at h

theorem agreesWith_envOf (q : Params) : agreesWith (envOf q) q := by
  intro n x h
  simp [envOf, h]

theorem attainable_constModel (q : Params) :
    attainable constModel emptyData q = {(0 : ℝ)} := by
  ext x
  constructor
  · rintro ⟨env, _, rfl⟩
    simp [evaluateTotal, constModel]
  · intro hx
    rw [Set.mem_singleton_iff] at hx
    subst hx
    exact ⟨envOf q, agreesWith_envOf q, by simp [evaluateTotal, constModel]⟩

/-- C2: the profiled supremum of attainable log-likelihoods is bounded by the
global supremum; hence when the cached global fit and the profiled fit both
attain their true suprema the statistic is nonnegative; and the statistic is
returned raw (never clipped to zero), a negative value being exactly the
profiling-failure warning condition. -/
theorem C2_profiled_le_global (m : ModelDef) (d : Dataset) (s : ModelState)
    (theta phig : Params) :
    ((attainable m d theta).Nonempty → BddAbove (attainable m d []) →
      sSup (attainable m d theta) ≤ sSup (attainable m d [])) ∧
    (∀ fr : FitResult, s.fit = some fr → fr.gen = s.datasetGen →
      s.model.paramNeeded ⊆ insert pData (Params.keys theta ∪ Params.keys phig) →
      fr.value = sSup (attainable s.model s.dataset []) →
      profiledLL s theta phig = sSup (attainable s.model s.dataset theta) →
      (attainable s.model s.dataset theta).Nonempty →
      BddAbove (attainable s.model s.dataset []) →
      ∃ t, chi2 s theta phig = .ok t ∧ 0 ≤ t) ∧
    (∀ t, chi2 s theta phig = .ok t →
      ∃ fr, s.fit = some fr ∧ t = -2 * (profiledLL s theta phig - fr.value) ∧
        (t < 0 ↔ profilingWarning s theta phig)) := by
  have hsub : ∀ (m' : ModelDef) (d' : Dataset) (q : Params),
      attainable m' d' q ⊆ attainable m' d' [] := by
    rintro m' d' q x ⟨env, _, rfl⟩
    exact ⟨env, by intro n y hy; simp [Params.lookup] at hy, rfl⟩
  refine ⟨?_, ?_, ?_⟩
  · intro hne hbd
    exact csSup_le_csSup hbd hne (hsub m d theta)
  · intro fr hfit hgen hcov hglob hprof hne hbd
    refine ⟨_, chi2_eq_ok s theta phig hfit hgen hcov, ?_⟩
    have hle : profiledLL s theta phig ≤ fr.value := by
      rw [hprof, hglob]
      exact csSup_le_csSup hbd hne (hsub _ _ _)
    linarith
  · intro t h
    obtain ⟨fr, hfit, _, hform⟩ := chi2_ok_inv h
    refine ⟨fr, hfit, hform, ?_, ?_⟩
    · intro hlt
      exact ⟨t, h, hlt⟩
    · rintro ⟨t', ht', hlt⟩
      rw [h] at ht'
      injection ht' with he
      rw [he]
      exact hlt

/-- Witness for C2: the constant-likelihood model at a valid fit attains both
suprema, the statistic is 0 and nonnegative, and the raw formula holds. -/
theorem C2_witness :
    (∃ t, chi2 cState [] [] = .ok t ∧ 0 ≤ t) ∧
    (∃ fr, cState.fit = some fr ∧
      -2 * (profiledLL cState [] [] - cFit.value) =
        -2 * (profiledLL cState [] [] - fr.value) ∧
      (-2 * (profiledLL cState [] [] - cFit.value) < 0 ↔
        profilingWarning cState [] [])) :=
  ⟨(C2_profiled_le_global constModel emptyData cState [] []).2.1 cFit rfl rfl (by decide)
     (by rw [show attainable cState.model cState.dataset ([] : Params) = {(0 : ℝ)} from
           attainable_constModel [], csSup_singleton]
         rfl)
     (by rw [show attainable cState.model cState.dataset ([] : Params) = {(0 : ℝ)} from
           attainable_constModel [], csSup_singleton]
         simp [profiledLL, evaluateTotal, cState, constModel])
     (by rw [show attainable cState.model cState.dataset ([] : Params) = {(0 : ℝ)} from
           attainable_constModel []]
         exact Set.singleton_nonempty 0)
     (by rw [show attainable cState.model cState.dataset ([] : Params) = {(0 : ℝ)} from
           attainable_constModel []]
         exact bddAbove_singleton),
   (C2_profiled_le_global constModel emptyData cState [] []).2.2 _
     (chi2_eq_ok cState [] [] rfl rfl (by decide))⟩

/-- C8: with every needed name supplied, `evaluate` on the demo model returns
the sum of the three term contributions: the Poisson count term, the
multi-source unbinned mixture term, and the Gaussian constraint term. -/
theorem C8_evaluate_sum_of_terms (nr er wimp : Template) (relStd : ℝ)
    (opt : ((String → ℝ) → ℝ) → Params → String → ℝ) (d : Dataset) (p : Params)
    (hcov : ∀ n ∈ (demoModel nr er wimp relStd opt).neededList, Params.hasKey p n = true) :
    evaluate (demoModel nr er wimp relStd opt) d p =
      .ok (poissonLogPmf ((demoSources nr er wimp).map (fun s => s.rateOf (envOf p))).sum
            d.events.length
        + (d.events.map (fun e =>
            Real.log (mixtureDensity (demoSources nr er wimp) (envOf p) e))).sum
        + gaussLogPdf (tenPow (envOf p pNr)) nr.norm (nr.norm * relStd)) := by
  rw [evaluate_ok_of_cover hcov]
  have h : evaluateTotal (demoModel nr er wimp relStd opt) d (envOf p) =
      poissonLogPmf ((demoSources nr er wimp).map (fun s => s.rateOf (envOf p))).sum
          d.events.length
        + (d.events.map (fun e =>
            Real.log (mixtureDensity (demoSources nr er wimp) (envOf p) e))).sum
        + gaussLogPdf (tenPow (envOf p pNr)) nr.norm (nr.norm * relStd) := by
    simp [evaluateTotal, demoModel]
    ring
  rw [h]

/-- Witness for C8: the demo model instance at a complete concrete parameter
vector evaluates to the three-term sum. -/
theorem C8_witness :
    evaluate dModel emptyData dFullParams =
      .ok (poissonLogPmf ((demoSources unitTemplate unitTemplate unitTemplate).map
            (fun s => s.rateOf (envOf dFullParams))).sum emptyData.events.length
        + (emptyData.events.map (fun e =>
            Real.log (mixtureDensity (demoSources unitTemplate unitTemplate unitTemplate)
              (envOf dFullParams) e))).sum
        + gaussLogPdf (tenPow (envOf dFullParams pNr)) unitTemplate.norm
            (unitTemplate.norm * 1)) :=
  C8_evaluate_sum_of_terms unitTemplate unitTemplate unitTemplate 1 zeroOpt emptyData
    dFullParams (by decide)

theorem sumTake_nonneg {ws : List ℝ} (h : ∀ w ∈ ws, 0 ≤ w) (k : ℕ) :
    0 ≤ sumTake ws k :=
  List.sum_nonneg (fun x hx => h x (List.take_subset _ _ hx))

theorem sumTake_cons_succ (w : ℝ) (ws : List ℝ) (k : ℕ) :
    sumTake (w :: ws) (k + 1) = w + sumTake ws k := by
  rw [sumTake, List.take_succ_cons, List.sum_cons, sumTake]

theorem pickIndex_eq_iff (ws : List ℝ) (u : ℝ) (k : ℕ)
    (hws : ∀ w ∈ ws, 0 ≤ w) (hu : 0 ≤ u) (hk : k < ws.length) :
    pickIndex ws u = k ↔ sumTake ws k ≤ u ∧ u < sumTake ws (k + 1) := by
  induction ws generalizing u k with
  | nil => simp at hk
  | cons w ws ih =>
    have hw : 0 ≤ w := hws w (List.mem_cons_self _ _)
    have hws' : ∀ w' ∈ ws, 0 ≤ w' := fun w' hw' => hws w' (List.mem_cons_of_mem _ hw')
    cases k with
    | zero =>
      simp only [pickIndex]
      constructor
      · intro h0
        by_cases hlt : u < w
        · refine ⟨by simpa [sumTake] using hu, ?_⟩
          rw [sumTake_cons_succ]
          have hS : (0 : ℝ) ≤ sumTake ws 0 := sumTake_nonneg hws' 0
          have hS0 : sumTake ws 0 = 0 := by simp [sumTake]
          linarith
        · rw [if_neg hlt] at h0
          omega
      · rintro ⟨_, hlt⟩
        rw [sumTake_cons_succ] at hlt
        have hS0 : sumTake ws 0 = 0 := by simp [sumTake]
        rw [if_pos (by linarith)]
    | succ k =>
      simp only [pickIndex]
      have hkl : k < ws.length := by simpa using hk
      rw [sumTake_cons_succ, sumTake_cons_succ]
      by_cases hlt : u < w
      · rw [if_pos hlt]
        constructor
        · intro h0; omega
        · rintro ⟨h1, _⟩
          have hS : 0 ≤ sumTake ws k := sumTake_nonneg hws' k
          linarith
      · rw [if_neg hlt]
        have hwu : w ≤ u := not_lt.1 hlt
        have ih' := ih (u - w) k hws' (by linarith) hkl
        constructor
        · intro h0
          have hks : pickIndex ws (u - w) = k := by omega
          obtain ⟨h1, h2⟩ := ih'.1 hks
          constructor <;> linarith
        · rintro ⟨h1, h2⟩
          have hks : pickIndex ws (u - w) = k :=
            ih'.2 ⟨by linarith, by linarith⟩
          omega

theorem sum_mul_div (l : List Source) (env : String → ℝ) (e : Event) (W : ℝ) :
    (l.map (fun s => s.rateOf env * s.template.density e)).sum / W =
      (l.map (fun s => s.rateOf env / W * s.template.density e)).sum := by
  induction l with
  | nil => simp
  | cons a l ih =>
    rw [List.map_cons, List.sum_cons, add_div, ih, List.map_cons, List.sum_cons]
    ring_nf

theorem mixtureDensity_normalized (srcs : List Source) (env : String → ℝ) (e : Event) :
    mixtureDensity srcs env e =
      (srcs.map (fun s => s.rateOf env / (srcs.map (fun s' => s'.rateOf env)).sum *
        s.template.density e)).sum := by
  rw [mixtureDensity, sum_mul_div]

/-- C6: the simulator draws the total event count, then per event picks a
source label by inverse CDF on the rate weights (the draw region of label k
is exactly the cumulative-rate interval of width equal to that source's rate)
and samples the event from that source's template; and the demo likelihood
factorizes over exactly the same rates and templates: a Poisson count term at
the combined rate, a per-event mixture with weights rate/total, and the
Gaussian constraint. -/
theorem C6_simulate_generative_factorization (nr er wimp : Template) (relStd : ℝ)
    (opt : ((String → ℝ) → ℝ) → Params → String → ℝ) (m : ModelDef)
    (hm : m = demoModel nr er wimp relStd opt)
    (env : String → ℝ) (d : Dataset) (r : Randomness) :
    ((simulate m env r).events.length = r.count) ∧
    (∀ i, i < r.count →
      (simulate m env r).events[i]? =
        some ((m.sources.getD (pickIndex (sourceRates m env) (r.u i))
          defaultSource).template.sample (r.seed i))) ∧
    (∀ (ws : List ℝ) (u : ℝ) (k : ℕ), (∀ w ∈ ws, 0 ≤ w) → 0 ≤ u → k < ws.length →
      (pickIndex ws u = k ↔ sumTake ws k ≤ u ∧ u < sumTake ws (k + 1))) ∧
    (evaluateTotal m d env =
      poissonLogPmf (totalRate m env) d.events.length
      + (d.events.map (fun e => Real.log
          ((m.sources.map (fun s =>
            s.rateOf env / totalRate m env * s.template.density e)).sum))).sum
      + gaussLogPdf (tenPow (env pNr)) nr.norm (nr.norm * relStd)) := by
  refine ⟨by simp [simulate], ?_, pickIndex_eq_iff, ?_⟩
  · intro i hi
    simp [simulate, List.getElem?_map, List.getElem?_range hi]
  · subst hm
    have hmix : ∀ e : Event, mixtureDensity (demoSources nr er wimp) env e =
        ((demoSources nr er wimp).map (fun s =>
          s.rateOf env / ((demoSources nr er wimp).map (fun s' => s'.rateOf env)).sum *
            s.template.density e)).sum :=
      fun e => mixtureDensity_normalized (demoSources nr er wimp) env e
    have htot : totalRate (demoModel nr er wimp relStd opt) env =
        ((demoSources nr er wimp).map (fun s' => s'.rateOf env)).sum := rfl
    rw [htot]
    simp only [evaluateTotal, demoModel, List.map_cons, List.map_nil, List.sum_cons,
      List.sum_nil, hmix]
    ring

/-- Witness for C6: the concrete demo instance: one simulated event assembled
from the picked source template, the inverse-CDF pick landing in the second
cumulative interval, and the concrete factorization identity. -/
theorem C6_witness :
    ((simulate dModel (fun _ => 0) r1).events.length = r1.count) ∧
    ((simulate dModel (fun _ => 0) r1).events[0]? =
      some ((dModel.sources.getD (pickIndex (sourceRates dModel (fun _ => 0)) (r1.u 0))
        defaultSource).template.sample (r1.seed 0))) ∧
    (pickIndex [(1 : ℝ), 2] 2 = 1) ∧
    (evaluateTotal dModel emptyData (fun _ => 0) =
      poissonLogPmf (totalRate dModel (fun _ => 0)) emptyData.events.length
      + (emptyData.events.map (fun e => Real.log
          ((dModel.sources.map (fun s =>
            s.rateOf (fun _ => 0) / totalRate dModel (fun _ => 0) *
              s.template.density e)).sum))).sum
      + gaussLogPdf (tenPow ((fun _ => (0 : ℝ)) pNr)) unitTemplate.norm
          (unitTemplate.norm * 1)) :=
  ⟨(C6_simulate_generative_factorization unitTemplate unitTemplate unitTemplate 1 zeroOpt
      dModel rfl (fun _ => 0) emptyData r1).1,
   (C6_simulate_generative_factorization unitTemplate unitTemplate unitTemplate 1 zeroOpt
      dModel rfl (fun _ => 0) emptyData r1).2.1 0 (by decide),
   ((C6_simulate_generative_factorization unitTemplate unitTemplate unitTemplate 1 zeroOpt
      dModel rfl (fun _ => 0) emptyData r1).2.2.1 [(1 : ℝ), 2] 2 1
      (by norm_num) (by norm_num) (by norm_num)).mpr
      (by constructor
          · rw [show sumTake [(1 : ℝ), 2] 1 = 1 by simp [sumTake]]
            norm_num
          · rw [show sumTake [(1 : ℝ), 2] 2 = 3 by norm_num [sumTake]]
            norm_num),
   (C6_simulate_generative_factorization unitTemplate unitTemplate unitTemplate 1 zeroOpt
      dModel rfl (fun _ => 0) emptyData r1).2.2.2⟩

end Inference

end
